import Mathlib

/-!
Verification of `simtree/sim.py` (single-index model estimator).

The source is embedded shallowly over `ℚ`.  External collaborators that the
repository only calls (the smoothing-spline shape engine `SMSpline*`, numpy's
`sqrt`/`exp`/`pinv`, sklearn's `Lasso`, `train_test_split` and the seeded
`np.random.shuffle` stream) are modelled as fields of an `Env` record: the
refinement algorithm of `sim.py` is parametric in their behaviour, exactly as
§6 of the design treats them (an opaque contract).  Everything that is code of
`sim.py` itself — the direction post-processing, the nested middle/inner loop,
the Adam update, the commit-on-improvement logic, the facade methods — is
translated line by line.
-/

namespace SimTree

/-- A feature vector / direction vector: a row of `x` or `β` (flattened). -/
abbrev Vec := List ℚ

/-- One training sample: a feature row together with its target. -/
abbrev Sample := Vec × ℚ

/-- `np.dot(x, beta)` for a single row: the scalar projection `βᵀx`. -/
def dot (a b : Vec) : ℚ := (List.zipWith (· * ·) a b).sum

/-- Componentwise sum of two vectors (numpy broadcasting on equal shapes). -/
def vadd (a b : Vec) : Vec := List.zipWith (· + ·) a b

/-- Componentwise difference of two vectors. -/
def vsub (a b : Vec) : Vec := List.zipWith (· - ·) a b

/-- Componentwise product of two vectors. -/
def vmul (a b : Vec) : Vec := List.zipWith (· * ·) a b

/-- Componentwise quotient of two vectors. -/
def vdiv (a b : Vec) : Vec := List.zipWith (· / ·) a b

/-- Scalar times vector. -/
def vscale (c : ℚ) (a : Vec) : Vec := a.map (c * ·)

/-- Sum of a list of vectors of length `d` (numpy `sum` over axis 0). -/
def vsumAll (d : ℕ) (l : List Vec) : Vec := l.foldl vadd (List.replicate d 0)

/-- `np.linalg.norm(z) ** 2`: the sum of squared entries. -/
def sumsq (a : Vec) : ℚ := (a.map (fun q => q * q)).sum

/-- `np.min` of a list (the runs of the source never take it on an empty
projection; `0` is a junk value for the empty case). -/
def listMin : List ℚ → ℚ
  | [] => 0
  | q :: t => t.foldl min q

/-- `np.max` of a list. -/
def listMax : List ℚ → ℚ
  | [] => 0
  | q :: t => t.foldl max q

/-- Index of the first entry of maximal absolute value, numpy `argmax` over
`np.abs`: a strictly larger value replaces the current best. -/
def argmaxAbsAux : List ℚ → ℕ → ℚ → ℕ → ℕ
  | [], _, _, bi => bi
  | q :: t, i, bv, bi =>
      if bv < |q| then argmaxAbsAux t (i + 1) |q| i else argmaxAbsAux t (i + 1) bv bi

/-- `np.argmax(np.abs(v))` (first occurrence of the maximum; `0` on `[]`). -/
def argmaxAbs : Vec → ℕ
  | [] => 0
  | q :: t => argmaxAbsAux t 1 |q| 0

/-- The external collaborators of `sim.py`, fixed for one fitting run.

* `rawEstimate` models lines 48–60 of `_first_order_thres`: the raw (not yet
  normalized) direction `zbar`, produced either by the Stein identity with
  `np.linalg.pinv` (`reg_lambda == 0`) or by sklearn's `Lasso` path — both
  external numeric routines.
* `fitShape` models `_estimate_shape`: constructing and fitting an
  `SMSplineRegressor`/`SMSplineClassifier` on `(xb, y, xmin, xmax)`; the
  estimator's spline hyperparameters, which never change during refinement,
  are baked into the field.
* `predict` models `shape_fit_.predict` (regression branch) respectively
  `shape_fit_.predict_proba(...)[:, 1]` (classification branch): the two
  `is_regressor`/`is_classifier` branches of the loop compute a prediction
  and then the loss in exactly the same way.
* `dec` models `shape_fit_.decision_function`, `diff` models
  `shape_fit_.diff(·, order=1)`, `getLoss` models `shape_fit_.get_loss`.
* `sqrt` models `np.sqrt` / `np.linalg.norm`'s square root, `exp` models the
  exponential inside sklearn's `softmax`.
* `split` models the seeded `train_test_split` of lines 155–164 (both the
  stratified and the plain variant), returning `(train, validation)`.
* `shuffle` models the seeded `np.random.shuffle` stream; its argument is the
  number of shuffles drawn so far in this fitting run. -/
structure Env (S : Type) where
  rawEstimate : List Vec → List ℚ → Vec
  fitShape : List ℚ → List ℚ → ℚ → ℚ → S
  predict : S → ℚ → ℚ
  dec : S → ℚ → ℚ
  diff : S → ℚ → ℚ
  getLoss : List ℚ → List ℚ → ℚ
  sqrt : ℚ → ℚ
  exp : ℚ → ℚ
  split : List Sample → List Sample × List Sample
  shuffle : ℕ → List Sample → List Sample

/-- The keyword arguments of `fit_middle_update_adam` (the validation split
ratio and the stratify flag are realized inside `Env.split`; `verbose` only
prints). `d` is the number of features, needed for the zero initialisation of
the Adam moments. -/
structure Config where
  d : ℕ
  tol : ℚ
  maxMiddleIter : ℕ
  nMiddleNoChange : ℕ
  maxInnerIter : ℕ
  nInnerNoChange : ℕ
  batchSize : ℕ
  lr : ℚ
  beta1 : ℚ
  beta2 : ℚ

/-- The public estimator state (`BaseSim` fields after a successful `fit`):
the scikit-learn constructor hyperparameters plus the fitted pair
`(beta_, shape_fit_)`. -/
structure Sim (S : Type) where
  reg_lambda : ℚ
  reg_gamma : ℚ
  knot_num : ℕ
  degree : ℕ
  random_state : ℕ
  beta_ : Vec
  shape_fit_ : S

/-- `_first_order_thres` lines 61–65: normalize the raw estimate to unit
length when its norm is positive, otherwise return it unchanged. -/
def firstOrderThres {S : Type} (E : Env S) (xs : List Vec) (ys : List ℚ) : Vec :=
  let z := E.rawEstimate xs ys
  if 0 < E.sqrt (sumsq z) then z.map (· / E.sqrt (sumsq z)) else z

/-- `fit` lines 88–90: if the vector has a nonzero entry and the entry of
largest absolute value is negative, negate the whole vector. -/
def signFix (b : Vec) : Vec :=
  if b.any (fun q => 0 < |q|) then
    (if b.getD (argmaxAbs b) 0 < 0 then b.map (fun q => -q) else b)
  else b

/-- The direction vector `self.beta_` produced by `fit` (lines 86–90):
the thresholded first-order estimate followed by the sign fix. -/
def fitBeta {S : Type} (E : Env S) (xs : List Vec) (ys : List ℚ) : Vec :=
  signFix (firstOrderThres E xs ys)

/-- Validation loss of a `(β, shape)` pair on the held-out split
(lines 167–173 / 221–227 / 252–258: project `val_x` through `β`, predict with
the shape function, score with `get_loss`). -/
def valLoss {S : Type} (E : Env S) (val : List Sample) (β : Vec) (s : S) : ℚ :=
  E.getLoss (val.map Prod.snd) (val.map (fun p => E.predict s (dot p.1 β)))

/-- `1e-8`, the fixed floor in Adam's denominator (line 218). -/
def eps8 : ℚ := 1 / 100000000

/-- The Adam optimizer state of one middle iteration: the two moment moving
averages `m_t`, `v_t` and the update counter `num_updates` (lines 180–182).
It lives in local variables of `fit_middle_update_adam` only; the `Sim`
record has no field for it. -/
structure AdamState where
  m : Vec
  v : Vec
  num : ℕ
deriving Repr, DecidableEq

/-- The zero Adam state installed at the start of every middle iteration
(lines 180–182: `m_t = 0`, `v_t = 0`, `num_updates = 0`; the scalar zeros
broadcast to vectors of length `d` on first use). -/
def adamZero (d : ℕ) : AdamState :=
  ⟨List.replicate d 0, List.replicate d 0, 0⟩

/-- The mini-batch gradient of lines 201–209: project the batch through the
current working `θ`, compute residuals against the (stale) shape function's
prediction, multiply by minus the shape derivative, weight into the feature
rows and average over the batch. -/
def gradBatch {S : Type} (E : Env S) (d : ℕ) (s : S) (θ : Vec)
    (batch : List Sample) : Vec :=
  vscale (1 / (batch.length : ℚ))
    (vsumAll d (batch.map (fun p =>
      vscale (-(E.diff s (dot p.1 θ)) * (p.2 - E.predict s (dot p.1 θ))) p.1)))

/-- One Adam update (lines 196, 211–218): bump the update counter, update the
two moving averages, bias-correct them by the counter, and step `θ` by
`learning_rate * m_cap / (sqrt(v_cap) + 1e-8)` componentwise.  (The source
increments `num_updates` at the top of the batch before computing the
gradient; the counter is only read here, so the order is equivalent.) -/
def adamUpdate {S : Type} (E : Env S) (C : Config) (a : AdamState) (θ g : Vec) :
    AdamState × Vec :=
  let m' := vadd (vscale C.beta1 a.m) (vscale (1 - C.beta1) g)
  let v' := vadd (vscale C.beta2 a.v) (vscale (1 - C.beta2) (vmul g g))
  let num' := a.num + 1
  let mcap := vscale (1 / (1 - C.beta1 ^ num')) m'
  let vcap := vscale (1 / (1 - C.beta2 ^ num')) v'
  (⟨m', v', num'⟩,
    vsub θ (vdiv (vscale C.lr mcap) (vcap.map (fun q => E.sqrt q + eps8))))

/-- The mini-batches of one epoch (lines 194–199): consecutive slices of size
`bs`, `train_size // bs` of them; the remainder beyond full batches is
dropped.  (The `% train_size` of line 197 never wraps because
`iterations * bs < train_size`.) -/
def batchesOf (bs : ℕ) (tr : List Sample) : List (List Sample) :=
  (List.range (tr.length / bs)).map (fun i => (tr.drop (i * bs)).take bs)

/-- The local state of the inner epoch loop (lines 180–239): the working
direction `theta_0`, the Adam state, the (re-shuffled) training list, the
best-so-far inner validation loss (`np.inf` initially, hence `Option` with
`none` for infinity), the inner no-change counter, and the position in the
shuffle stream. -/
structure IState (S : Type) where
  theta : Vec
  adam : AdamState
  tr : List Sample
  bestInner : Option ℚ
  noInnerChange : ℕ
  ctr : ℕ

/-- `val_loss > val_loss_..._best - tol` with `np.inf` as the initial best
(any finite loss is below infinity minus tol). -/
def gtBestMinusTol (v : ℚ) (best : Option ℚ) (tol : ℚ) : Bool :=
  match best with
  | none => false
  | some b => decide (b - tol < v)

/-- `val_loss < val_loss_..._best` with `np.inf` as the initial best. -/
def ltBest (v : ℚ) (best : Option ℚ) : Bool :=
  match best with
  | none => true
  | some b => decide (v < b)

/-- One inner epoch (lines 187–236): shuffle the training set, run Adam over
the mini-batches, recompute the validation loss with the updated `θ` and the
still-unrefit shape function `s`, and update the inner early-stopping
bookkeeping.  Returns the new state and this epoch's validation loss. -/
def epochStep {S : Type} (E : Env S) (C : Config) (s : S) (val : List Sample)
    (bs : ℕ) (st : IState S) : IState S × ℚ :=
  let tr' := E.shuffle st.ctr st.tr
  let p := (batchesOf bs tr').foldl
    (fun (aθ : AdamState × Vec) batch =>
      adamUpdate E C aθ.1 aθ.2 (gradBatch E C.d s aθ.2 batch))
    (st.adam, st.theta)
  let loss := valLoss E val p.2 s
  let noChg := if gtBestMinusTol loss st.bestInner C.tol then st.noInnerChange + 1 else 0
  let best := if ltBest loss st.bestInner then some loss else st.bestInner
  (⟨p.2, p.1, tr', best, noChg, st.ctr + 1⟩, loss)

/-- The inner loop (lines 187–239): up to `max_inner_iter` epochs, breaking as
soon as the inner no-change counter reaches `n_inner_iter_no_change`. -/
def innerLoop {S : Type} (E : Env S) (C : Config) (s : S) (val : List Sample)
    (bs : ℕ) : ℕ → IState S → IState S
  | 0, st => st
  | fuel + 1, st =>
      let p := epochStep E C s val bs st
      if C.nInnerNoChange ≤ p.1.noInnerChange then p.1
      else innerLoop E C s val bs fuel p.1

/-- The per-epoch validation losses actually evaluated by the inner loop, in
order (one entry per executed epoch). -/
def innerTrace {S : Type} (E : Env S) (C : Config) (s : S) (val : List Sample)
    (bs : ℕ) : ℕ → IState S → List ℚ
  | 0, _ => []
  | fuel + 1, st =>
      let p := epochStep E C s val bs st
      p.2 :: (if C.nInnerNoChange ≤ p.1.noInnerChange then []
              else innerTrace E C s val bs fuel p.1)

/-- The inner state after `k` epochs, ignoring the early-stopping break
(the loop with break is a truncation of this iteration). -/
def innerIter {S : Type} (E : Env S) (C : Config) (s : S) (val : List Sample)
    (bs : ℕ) (st : IState S) : ℕ → IState S
  | 0 => st
  | k + 1 => (epochStep E C s val bs (innerIter E C s val bs st k)).1

/-- The state of the middle loop: the publicly committed pair (the fields
`self.beta_` / `self.shape_fit_` the caller sees), the working copy
`self_copy`'s pair, the current training list (shuffles persist across middle
iterations), `val_loss_middle_iter_best`, `no_middle_iter_change`, and the
shuffle-stream position. -/
structure MState (S : Type) where
  pubBeta : Vec
  pubShape : S
  copyBeta : Vec
  copyShape : S
  tr : List Sample
  bestMiddle : ℚ
  noMiddleChange : ℕ
  ctr : ℕ

/-- A middle-iteration candidate: the normalized direction, the refit shape
function and the validation loss the iteration evaluated for them. -/
structure Cand (S : Type) where
  beta : Vec
  shape : S
  loss : ℚ

/-- The β normalization at the end of the inner loop (lines 241–245): when
the norm is positive, rescale to unit length and apply the sign fix; note
that, unlike in `fit`, the sign fix sits inside the positive-norm branch. -/
def normalizeTheta {S : Type} (E : Env S) (θ : Vec) : Vec :=
  if 0 < E.sqrt (sumsq θ) then
    let θn := θ.map (· / E.sqrt (sumsq θ))
    if θn.getD (argmaxAbs θn) 0 < 0 then θn.map (fun q => -q) else θn
  else θ

/-- One middle iteration (lines 178–269), started from an explicit Adam
state `a0`: run the inner epoch loop from the working copy's direction,
normalize the result, refit the shape function on the training projections
under the new direction (lines 248–250), evaluate the candidate's validation
loss (lines 252–258), and apply the commit / patience logic of lines 260–267.
Returns the new middle state and the candidate. -/
def middleStepWith {S : Type} (E : Env S) (C : Config) (val : List Sample)
    (bs : ℕ) (a0 : AdamState) (st : MState S) : MState S × Cand S :=
  let ist := innerLoop E C st.copyShape val bs C.maxInnerIter
    ⟨st.copyBeta, a0, st.tr, none, 0, st.ctr⟩
  let cβ := normalizeTheta E ist.theta
  let proj := ist.tr.map (fun p => dot p.1 cβ)
  let cS := E.fitShape proj (ist.tr.map Prod.snd) (listMin proj) (listMax proj)
  let closs := valLoss E val cβ cS
  (⟨if closs < st.bestMiddle then cβ else st.pubBeta,
    if closs < st.bestMiddle then cS else st.pubShape,
    cβ, cS, ist.tr,
    if closs < st.bestMiddle then closs else st.bestMiddle,
    if st.bestMiddle - C.tol < closs then st.noMiddleChange + 1 else 0,
    ist.ctr⟩, ⟨cβ, cS, closs⟩)

/-- One middle iteration as executed: the Adam moments and the update counter
are reset to zero at its start (lines 180–182). -/
def middleStep {S : Type} (E : Env S) (C : Config) (val : List Sample)
    (bs : ℕ) (st : MState S) : MState S × Cand S :=
  middleStepWith E C val bs (adamZero C.d) st

/-- The middle loop (lines 178–269): up to `max_middle_iter` iterations,
breaking as soon as `no_middle_iter_change` reaches
`n_middle_iter_no_change`. -/
def middleLoop {S : Type} (E : Env S) (C : Config) (val : List Sample)
    (bs : ℕ) : ℕ → MState S → MState S
  | 0, st => st
  | fuel + 1, st =>
      let p := middleStep E C val bs st
      if C.nMiddleNoChange ≤ p.1.noMiddleChange then p.1
      else middleLoop E C val bs fuel p.1

/-- The candidates actually evaluated by the middle loop, in order (one entry
per executed middle iteration). -/
def middleTrace {S : Type} (E : Env S) (C : Config) (val : List Sample)
    (bs : ℕ) : ℕ → MState S → List (Cand S)
  | 0, _ => []
  | fuel + 1, st =>
      let p := middleStep E C val bs st
      p.2 :: (if C.nMiddleNoChange ≤ p.1.noMiddleChange then []
              else middleTrace E C val bs fuel p.1)

/-- The middle state after `k` iterations, ignoring the early-stopping break. -/
def middleIter {S : Type} (E : Env S) (C : Config) (val : List Sample)
    (bs : ℕ) (st : MState S) : ℕ → MState S
  | 0 => st
  | k + 1 => (middleStep E C val bs (middleIter E C val bs st k)).1

/-- The initial middle-loop state of `fit_middle_update_adam` (lines 166–177):
the working copy is a deep copy of the public model, the best middle loss is
the committed model's validation loss on the held-out split, and the counters
start at zero. -/
def initMState {S : Type} (E : Env S) (model : Sim S) (tr val : List Sample) :
    MState S :=
  ⟨model.beta_, model.shape_fit_, model.beta_, model.shape_fit_, tr,
    valLoss E val model.beta_ model.shape_fit_, 0, 0⟩

/-- `fit_middle_update_adam` (lines 115–271): split the data, clamp the batch
size to the training-set size, compute the committed model's baseline
validation loss, and run the middle loop.  The only writes to the public
estimator are the commits at lines 265–266; the final
`self = deepcopy(self_copy)` of line 271 rebinds a local name in Python and
does not affect the caller's estimator, so the function's result is the
public model with the committed pair. -/
def fitMiddleUpdateAdam {S : Type} (E : Env S) (C : Config) (model : Sim S)
    (data : List Sample) : Sim S :=
  let tv := E.split data
  let bs := min C.batchSize tv.1.length
  let stF := middleLoop E C tv.2 bs C.maxMiddleIter (initMState E model tv.1 tv.2)
  { model with beta_ := stF.pubBeta, shape_fit_ := stF.pubShape }

/-- One row of `SimClassifier.predict_proba` (lines 500–502): sklearn's
`softmax` applied to `[-d, d] / 2`.  `softmax` shifts by the row maximum for
stability and then normalizes the exponentials, which is mathematically
`exp(aᵢ) / Σ exp(aⱼ)`; the embedding uses that closed form directly. -/
def probRow {S : Type} (E : Env S) (d : ℚ) : List ℚ :=
  [E.exp (-d / 2) / (E.exp (-d / 2) + E.exp (d / 2)),
   E.exp (d / 2) / (E.exp (-d / 2) + E.exp (d / 2))]

/-- `LabelBinarizer.fit(y).classes_`: `np.unique` of the labels, i.e. the
distinct observed labels in ascending order. -/
def uniqueSorted (y : List ℚ) : List ℚ :=
  List.insertionSort (· ≤ ·) y.dedup

/-- `LabelBinarizer.inverse_transform` on a class-1 probability with the
default threshold `1/2`: pick `classes_[1]` when the probability exceeds the
threshold and `classes_[0]` otherwise (binary case; the `getD` defaults only
matter for the degenerate single-class fit). -/
def binInverse (classes : List ℚ) (p : ℚ) : ℚ :=
  if 1 / 2 < p then classes.getD 1 (classes.getD 0 0) else classes.getD 0 0

/-- A fitted `SimClassifier`: the fitted pair plus the label classes stored
by `_validate_input` (lines 459–463). -/
structure ClfFitted (S : Type) where
  beta_ : Vec
  shape_fit_ : S
  classes_ : List ℚ

/-- `SimClassifier.predict_proba` on a batch of rows: the decision value of
each projected sample, pushed through the two-class softmax. -/
def predictProbaC {S : Type} (E : Env S) (m : ClfFitted S) (xs : List Vec) :
    List (List ℚ) :=
  xs.map (fun x => probRow E (E.dec m.shape_fit_ (dot x m.beta_)))

/-- `SimClassifier.predict` (lines 518–519): threshold the class-1
probability and invert the label binarization. -/
def predictC {S : Type} (E : Env S) (m : ClfFitted S) (xs : List Vec) :
    List ℚ :=
  (predictProbaC E m xs).map (fun row => binInverse m.classes_ (row.getD 1 0))

/-- The estimator as a bag of optional attributes, for the
`check_is_fitted` contract: a Python attribute that `fit` has not set is
absent (`none`).  `classes_q` stands in for the classifier's stored
`_label_binarizer` classes. -/
structure SimAttrs (S : Type) where
  beta_ : Option Vec
  shape_fit_ : Option S
  classes_q : List ℚ

/-- The two `check_is_fitted` guards of `decision_function` (lines 109–110)
and `visualize` (lines 278–279): fail with a not-fitted error unless both
`beta_` and `shape_fit_` are present. -/
def checkIsFitted {S : Type} (m : SimAttrs S) : Except String (Vec × S) :=
  match m.beta_, m.shape_fit_ with
  | some b, some s => Except.ok (b, s)
  | _, _ => Except.error "not fitted"

/-- `decision_function` (lines 95–113): check fitted-ness, then return
`shape_fit_.decision_function(x β)` for each row. -/
def decisionFunctionA {S : Type} (E : Env S) (m : SimAttrs S) (xs : List Vec) :
    Except String (List ℚ) :=
  (checkIsFitted m).map (fun bs => xs.map (fun x => E.dec bs.2 (dot x bs.1)))

/-- `SimRegressor.predict` (lines 394–408): exactly the decision function. -/
def predictRegA {S : Type} (E : Env S) (m : SimAttrs S) (xs : List Vec) :
    Except String (List ℚ) :=
  decisionFunctionA E m xs

/-- `SimClassifier.predict_proba` (lines 486–502) on the attribute bag: the
decision function (which performs the fitted check) followed by the softmax
rows. -/
def predictProbaA {S : Type} (E : Env S) (m : SimAttrs S) (xs : List Vec) :
    Except String (List (List ℚ)) :=
  (decisionFunctionA E m xs).map (fun ds => ds.map (probRow E))

/-- `SimClassifier.predict` (lines 504–519) on the attribute bag. -/
def predictClfA {S : Type} (E : Env S) (m : SimAttrs S) (xs : List Vec) :
    Except String (List ℚ) :=
  (predictProbaA E m xs).map
    (fun rows => rows.map (fun row => binInverse m.classes_q (row.getD 1 0)))

/-- `visualize` (lines 273–324): the two `check_is_fitted` guards run before
any plotting; the matplotlib drawing itself is I/O outside the data model and
is elided, so a fitted model yields `()`. -/
def visualizeA {S : Type} (m : SimAttrs S) : Except String Unit :=
  (checkIsFitted m).map (fun _ => ())

/-! ### Helper lemmas about one middle iteration -/

section MiddleLemmas

variable {S : Type} (E : Env S) (C : Config) (val : List Sample) (bs : ℕ)

/-- The candidate's recorded loss is the validation loss of its own pair. -/
theorem middleStep_loss_eq (st : MState S) :
    (middleStep E C val bs st).2.loss =
      valLoss E val (middleStep E C val bs st).2.beta (middleStep E C val bs st).2.shape :=
  rfl

/-- The public pair after a middle iteration: replaced by the candidate
exactly on a literal strict improvement of the best loss so far. -/
theorem middleStep_pubBeta (st : MState S) :
    (middleStep E C val bs st).1.pubBeta =
      if (middleStep E C val bs st).2.loss < st.bestMiddle
      then (middleStep E C val bs st).2.beta else st.pubBeta :=
  rfl

theorem middleStep_pubShape (st : MState S) :
    (middleStep E C val bs st).1.pubShape =
      if (middleStep E C val bs st).2.loss < st.bestMiddle
      then (middleStep E C val bs st).2.shape else st.pubShape :=
  rfl

/-- The best-so-far tracker takes the literal minimum. -/
theorem middleStep_best (st : MState S) :
    (middleStep E C val bs st).1.bestMiddle =
      min st.bestMiddle (middleStep E C val bs st).2.loss := by
  show (if (middleStep E C val bs st).2.loss < st.bestMiddle
        then (middleStep E C val bs st).2.loss else st.bestMiddle) = _
  rcases lt_or_le (middleStep E C val bs st).2.loss st.bestMiddle with h | h
  · rw [if_pos h, min_eq_right h.le]
  · rw [if_neg (not_lt.mpr h), min_eq_left h]

/-- The patience counter: reset exactly when the candidate improves the best
loss so far by at least `tol`, incremented otherwise. -/
theorem middleStep_noChange (st : MState S) :
    (middleStep E C val bs st).1.noMiddleChange =
      if C.tol ≤ st.bestMiddle - (middleStep E C val bs st).2.loss
      then 0 else st.noMiddleChange + 1 := by
  show (if st.bestMiddle - C.tol < (middleStep E C val bs st).2.loss
        then st.noMiddleChange + 1 else 0) = _
  rcases le_or_lt C.tol (st.bestMiddle - (middleStep E C val bs st).2.loss) with h | h
  · rw [if_neg (show ¬ st.bestMiddle - C.tol < (middleStep E C val bs st).2.loss by
      push_neg; linarith), if_pos h]
  · rw [if_pos (show st.bestMiddle - C.tol < (middleStep E C val bs st).2.loss by
      linarith), if_neg (not_le.mpr h)]

end MiddleLemmas

/-! ### Helper lemmas about the middle loop -/

section MiddleLoopLemmas

variable {S : Type} (E : Env S) (C : Config) (val : List Sample) (bs : ℕ)

theorem middleIter_shift (st : MState S) (k : ℕ) :
    middleIter E C val bs st (k + 1) =
      middleIter E C val bs (middleStep E C val bs st).1 k := by
  induction k with
  | zero => rfl
  | succ k ih => show (middleStep E C val bs (middleIter E C val bs st (k + 1))).1 = _
                 rw [ih]; rfl

theorem middleTrace_length_le (fuel : ℕ) (st : MState S) :
    (middleTrace E C val bs fuel st).length ≤ fuel := by
  induction fuel generalizing st with
  | zero => simp [middleTrace]
  | succ fuel ih =>
      show ((middleStep E C val bs st).2 :: _).length ≤ fuel + 1
      rw [List.length_cons]
      split
      · simp
      · exact Nat.succ_le_succ (ih _)

/-- The loop with its early-stopping break is a truncation of the plain
iteration of `middleStep`: it stops after exactly `(middleTrace …).length`
iterations. -/
theorem middleLoop_eq_iter (fuel : ℕ) (st : MState S) :
    middleLoop E C val bs fuel st =
      middleIter E C val bs st (middleTrace E C val bs fuel st).length := by
  induction fuel generalizing st with
  | zero => rfl
  | succ fuel ih =>
      show (if C.nMiddleNoChange ≤ (middleStep E C val bs st).1.noMiddleChange
            then (middleStep E C val bs st).1
            else middleLoop E C val bs fuel (middleStep E C val bs st).1) = _
      show _ = middleIter E C val bs st
        ((middleStep E C val bs st).2 ::
          (if C.nMiddleNoChange ≤ (middleStep E C val bs st).1.noMiddleChange then []
           else middleTrace E C val bs fuel (middleStep E C val bs st).1)).length
      split
      · rfl
      · rw [List.length_cons, middleIter_shift, ih]

/-- Before the last executed middle iteration, the patience counter never
reached the middle-iteration patience. -/
theorem middleTrace_no_early_stop (fuel : ℕ) (st : MState S) :
    ∀ i, 1 ≤ i → i < (middleTrace E C val bs fuel st).length →
      (middleIter E C val bs st i).noMiddleChange < C.nMiddleNoChange := by
  induction fuel generalizing st with
  | zero => intro i h1 h2; simp [middleTrace] at h2
  | succ fuel ih =>
      intro i h1 h2
      rw [show middleTrace E C val bs (fuel + 1) st =
        (middleStep E C val bs st).2 ::
          (if C.nMiddleNoChange ≤ (middleStep E C val bs st).1.noMiddleChange then []
           else middleTrace E C val bs fuel (middleStep E C val bs st).1) from rfl,
        List.length_cons] at h2
      by_cases hstop : C.nMiddleNoChange ≤ (middleStep E C val bs st).1.noMiddleChange
      · rw [if_pos hstop] at h2; simp at h2; omega
      · rw [if_neg hstop] at h2
        rcases Nat.lt_or_ge i 2 with hi | hi
        · have : i = 1 := by omega
          subst this
          exact Nat.lt_of_not_le hstop
        · obtain ⟨j, rfl⟩ : ∃ j, i = j + 1 := ⟨i - 1, by omega⟩
          rw [middleIter_shift]
          exact ih _ j (by omega) (by omega)

/-- If the loop exits before exhausting its iteration budget, the patience
counter had just reached the middle-iteration patience. -/
theorem middleTrace_stop_reason (fuel : ℕ) (st : MState S) :
    (middleTrace E C val bs fuel st).length < fuel →
      C.nMiddleNoChange ≤
        (middleIter E C val bs st (middleTrace E C val bs fuel st).length).noMiddleChange := by
  induction fuel generalizing st with
  | zero => intro h; omega
  | succ fuel ih =>
      intro h
      rw [show middleTrace E C val bs (fuel + 1) st =
        (middleStep E C val bs st).2 ::
          (if C.nMiddleNoChange ≤ (middleStep E C val bs st).1.noMiddleChange then []
           else middleTrace E C val bs fuel (middleStep E C val bs st).1) from rfl] at h ⊢
      by_cases hstop : C.nMiddleNoChange ≤ (middleStep E C val bs st).1.noMiddleChange
      · rw [if_pos hstop]
        exact hstop
      · rw [if_neg hstop] at h ⊢
        rw [List.length_cons] at h ⊢
        rw [middleIter_shift]
        exact ih _ (by omega)

/-- The best-so-far tracker after the loop is the literal minimum of its
initial value and every evaluated candidate's loss. -/
theorem middleLoop_best_fold (fuel : ℕ) (st : MState S) :
    (middleLoop E C val bs fuel st).bestMiddle =
      (middleTrace E C val bs fuel st).foldl (fun b c => min b c.loss) st.bestMiddle := by
  induction fuel generalizing st with
  | zero => rfl
  | succ fuel ih =>
      show (if C.nMiddleNoChange ≤ (middleStep E C val bs st).1.noMiddleChange
            then (middleStep E C val bs st).1
            else middleLoop E C val bs fuel (middleStep E C val bs st).1).bestMiddle =
        ((middleStep E C val bs st).2 ::
          (if C.nMiddleNoChange ≤ (middleStep E C val bs st).1.noMiddleChange then []
           else middleTrace E C val bs fuel (middleStep E C val bs st).1)).foldl
          (fun b c => min b c.loss) st.bestMiddle
      by_cases hstop : C.nMiddleNoChange ≤ (middleStep E C val bs st).1.noMiddleChange
      · rw [if_pos hstop, if_pos hstop, List.foldl_cons, List.foldl_nil,
          ← middleStep_best]
      · rw [if_neg hstop, if_neg hstop, List.foldl_cons, ih, ← middleStep_best]

/-- The committed public pair's validation loss always equals the best-so-far
tracker (it starts as the committed model's baseline and every commit sets
both from the same candidate). -/
theorem middleLoop_pub_loss (fuel : ℕ) (st : MState S)
    (h : valLoss E val st.pubBeta st.pubShape = st.bestMiddle) :
    valLoss E val (middleLoop E C val bs fuel st).pubBeta
        (middleLoop E C val bs fuel st).pubShape =
      (middleLoop E C val bs fuel st).bestMiddle := by
  induction fuel generalizing st with
  | zero => exact h
  | succ fuel ih =>
      have hstep : valLoss E val (middleStep E C val bs st).1.pubBeta
          (middleStep E C val bs st).1.pubShape =
          (middleStep E C val bs st).1.bestMiddle := by
        rw [middleStep_pubBeta, middleStep_pubShape, middleStep_best]
        rcases lt_or_le (middleStep E C val bs st).2.loss st.bestMiddle with hc | hc
        · rw [if_pos hc, if_pos hc, min_eq_right hc.le, ← middleStep_loss_eq]
        · rw [if_neg (not_lt.mpr hc), if_neg (not_lt.mpr hc), min_eq_left hc, h]
      have hunf : middleLoop E C val bs (fuel + 1) st =
          (if C.nMiddleNoChange ≤ (middleStep E C val bs st).1.noMiddleChange
           then (middleStep E C val bs st).1
           else middleLoop E C val bs fuel (middleStep E C val bs st).1) := rfl
      rw [hunf]
      by_cases hstop : C.nMiddleNoChange ≤ (middleStep E C val bs st).1.noMiddleChange
      · rw [if_pos hstop]; exact hstep
      · rw [if_neg hstop]; exact ih _ hstep

/-- A `(β, shape)` pair is *coherent* when the shape function was fitted on
the projections of some training set under that very `β` (with the matching
domain bounds), i.e. it is the result of lines 248–250 for that `β`. -/
def Coherent (E : Env S) (β : Vec) (s : S) : Prop :=
  ∃ (txs : List Vec) (tys : List ℚ), s = E.fitShape (txs.map (fun x => dot x β)) tys
    (listMin (txs.map (fun x => dot x β))) (listMax (txs.map (fun x => dot x β)))

/-- Every middle-iteration candidate is coherent: its shape function is refit
from the training projections under the candidate's own direction. -/
theorem middleStep_cand_coherent (st : MState S) :
    Coherent E (middleStep E C val bs st).2.beta (middleStep E C val bs st).2.shape := by
  refine ⟨(innerLoop E C st.copyShape val bs C.maxInnerIter
      ⟨st.copyBeta, adamZero C.d, st.tr, none, 0, st.ctr⟩).tr.map Prod.fst,
    (innerLoop E C st.copyShape val bs C.maxInnerIter
      ⟨st.copyBeta, adamZero C.d, st.tr, none, 0, st.ctr⟩).tr.map Prod.snd, ?_⟩
  rw [List.map_map]
  rfl

/-- The public pair is only ever replaced wholesale by a coherent candidate
pair. -/
theorem middleLoop_pub_cases (p0 : Vec × S) (fuel : ℕ) (st : MState S)
    (h : (st.pubBeta, st.pubShape) = p0 ∨ Coherent E st.pubBeta st.pubShape) :
    ((middleLoop E C val bs fuel st).pubBeta,
      (middleLoop E C val bs fuel st).pubShape) = p0 ∨
      Coherent E (middleLoop E C val bs fuel st).pubBeta
        (middleLoop E C val bs fuel st).pubShape := by
  induction fuel generalizing st with
  | zero => exact h
  | succ fuel ih =>
      have hstep : ((middleStep E C val bs st).1.pubBeta,
          (middleStep E C val bs st).1.pubShape) = p0 ∨
          Coherent E (middleStep E C val bs st).1.pubBeta
            (middleStep E C val bs st).1.pubShape := by
        rw [middleStep_pubBeta, middleStep_pubShape]
        rcases lt_or_le (middleStep E C val bs st).2.loss st.bestMiddle with hc | hc
        · rw [if_pos hc, if_pos hc]
          exact Or.inr (middleStep_cand_coherent E C val bs st)
        · rw [if_neg (not_lt.mpr hc), if_neg (not_lt.mpr hc)]
          exact h
      have hunf : middleLoop E C val bs (fuel + 1) st =
          (if C.nMiddleNoChange ≤ (middleStep E C val bs st).1.noMiddleChange
           then (middleStep E C val bs st).1
           else middleLoop E C val bs fuel (middleStep E C val bs st).1) := rfl
      rw [hunf]
      by_cases hstop : C.nMiddleNoChange ≤ (middleStep E C val bs st).1.noMiddleChange
      · rw [if_pos hstop]; exact hstep
      · rw [if_neg hstop]; exact ih _ hstep

/-- Folding `min` over the candidate losses never exceeds the initial value. -/
theorem foldl_min_loss_le (l : List (Cand S)) (b : ℚ) :
    l.foldl (fun x c => min x c.loss) b ≤ b := by
  induction l generalizing b with
  | nil => exact le_refl b
  | cons c t ih => exact le_trans (ih (min b c.loss)) (min_le_left _ _)

end MiddleLoopLemmas

/-! ### Helper lemmas about the inner epoch loop -/

section InnerLoopLemmas

variable {S : Type} (E : Env S) (C : Config) (s : S) (val : List Sample) (bs : ℕ)

/-- The loss an epoch reports is the validation loss of the `θ` it just
produced, scored with the shape function `s` the whole inner loop was given
(the shape fitted in the previous middle iteration — never refit here). -/
theorem epochStep_loss_eq (st : IState S) :
    (epochStep E C s val bs st).2 =
      valLoss E val (epochStep E C s val bs st).1.theta s :=
  rfl

/-- The inner patience counter: reset exactly when the epoch improves the
best inner loss so far by at least `tol` (the first epoch, with the best at
`np.inf`, always resets), incremented otherwise. -/
theorem epochStep_noChange (st : IState S) :
    (epochStep E C s val bs st).1.noInnerChange =
      match st.bestInner with
      | none => 0
      | some b => if C.tol ≤ b - (epochStep E C s val bs st).2
                  then 0 else st.noInnerChange + 1 := by
  show (if gtBestMinusTol (epochStep E C s val bs st).2 st.bestInner C.tol
        then st.noInnerChange + 1 else 0) = _
  rcases st.bestInner with _ | b
  · rfl
  · show (if gtBestMinusTol (epochStep E C s val bs st).2 (some b) C.tol
          then st.noInnerChange + 1 else 0) =
      if C.tol ≤ b - (epochStep E C s val bs st).2 then 0 else st.noInnerChange + 1
    rcases le_or_lt C.tol (b - (epochStep E C s val bs st).2) with h | h
    · rw [if_pos h, if_neg]
      simp only [gtBestMinusTol, decide_eq_true_eq]
      push_neg
      linarith
    · rw [if_neg (not_le.mpr h), if_pos]
      simp only [gtBestMinusTol, decide_eq_true_eq]
      linarith

theorem innerIter_shift (st : IState S) (k : ℕ) :
    innerIter E C s val bs st (k + 1) =
      innerIter E C s val bs (epochStep E C s val bs st).1 k := by
  induction k with
  | zero => rfl
  | succ k ih => show (epochStep E C s val bs (innerIter E C s val bs st (k + 1))).1 = _
                 rw [ih]; rfl

theorem innerTrace_length_le (fuel : ℕ) (st : IState S) :
    (innerTrace E C s val bs fuel st).length ≤ fuel := by
  induction fuel generalizing st with
  | zero => simp [innerTrace]
  | succ fuel ih =>
      show ((epochStep E C s val bs st).2 :: _).length ≤ fuel + 1
      rw [List.length_cons]
      split
      · simp
      · exact Nat.succ_le_succ (ih _)

theorem innerLoop_eq_iter (fuel : ℕ) (st : IState S) :
    innerLoop E C s val bs fuel st =
      innerIter E C s val bs st (innerTrace E C s val bs fuel st).length := by
  induction fuel generalizing st with
  | zero => rfl
  | succ fuel ih =>
      show (if C.nInnerNoChange ≤ (epochStep E C s val bs st).1.noInnerChange
            then (epochStep E C s val bs st).1
            else innerLoop E C s val bs fuel (epochStep E C s val bs st).1) = _
      show _ = innerIter E C s val bs st
        ((epochStep E C s val bs st).2 ::
          (if C.nInnerNoChange ≤ (epochStep E C s val bs st).1.noInnerChange then []
           else innerTrace E C s val bs fuel (epochStep E C s val bs st).1)).length
      split
      · rfl
      · rw [List.length_cons, innerIter_shift, ih]

theorem innerTrace_no_early_stop (fuel : ℕ) (st : IState S) :
    ∀ i, 1 ≤ i → i < (innerTrace E C s val bs fuel st).length →
      (innerIter E C s val bs st i).noInnerChange < C.nInnerNoChange := by
  induction fuel generalizing st with
  | zero => intro i h1 h2; simp [innerTrace] at h2
  | succ fuel ih =>
      intro i h1 h2
      rw [show innerTrace E C s val bs (fuel + 1) st =
        (epochStep E C s val bs st).2 ::
          (if C.nInnerNoChange ≤ (epochStep E C s val bs st).1.noInnerChange then []
           else innerTrace E C s val bs fuel (epochStep E C s val bs st).1) from rfl,
        List.length_cons] at h2
      by_cases hstop : C.nInnerNoChange ≤ (epochStep E C s val bs st).1.noInnerChange
      · rw [if_pos hstop] at h2; simp at h2; omega
      · rw [if_neg hstop] at h2
        rcases Nat.lt_or_ge i 2 with hi | hi
        · have : i = 1 := by omega
          subst this
          exact Nat.lt_of_not_le hstop
        · obtain ⟨j, rfl⟩ : ∃ j, i = j + 1 := ⟨i - 1, by omega⟩
          rw [innerIter_shift]
          exact ih _ j (by omega) (by omega)

theorem innerTrace_stop_reason (fuel : ℕ) (st : IState S) :
    (innerTrace E C s val bs fuel st).length < fuel →
      C.nInnerNoChange ≤
        (innerIter E C s val bs st (innerTrace E C s val bs fuel st).length).noInnerChange := by
  induction fuel generalizing st with
  | zero => intro h; omega
  | succ fuel ih =>
      intro h
      rw [show innerTrace E C s val bs (fuel + 1) st =
        (epochStep E C s val bs st).2 ::
          (if C.nInnerNoChange ≤ (epochStep E C s val bs st).1.noInnerChange then []
           else innerTrace E C s val bs fuel (epochStep E C s val bs st).1) from rfl] at h ⊢
      by_cases hstop : C.nInnerNoChange ≤ (epochStep E C s val bs st).1.noInnerChange
      · rw [if_pos hstop]
        exact hstop
      · rw [if_neg hstop] at h ⊢
        rw [List.length_cons] at h ⊢
        rw [innerIter_shift]
        exact ih _ (by omega)

/-- Every loss the inner loop records is the validation loss of the updated
working direction after that epoch, scored with the fixed stale shape `s`. -/
theorem innerTrace_getD (fuel : ℕ) (st : IState S) :
    ∀ k, k < (innerTrace E C s val bs fuel st).length →
      (innerTrace E C s val bs fuel st).getD k 0 =
        valLoss E val (innerIter E C s val bs st (k + 1)).theta s := by
  induction fuel generalizing st with
  | zero => intro k hk; simp [innerTrace] at hk
  | succ fuel ih =>
      intro k hk
      rw [show innerTrace E C s val bs (fuel + 1) st =
        (epochStep E C s val bs st).2 ::
          (if C.nInnerNoChange ≤ (epochStep E C s val bs st).1.noInnerChange then []
           else innerTrace E C s val bs fuel (epochStep E C s val bs st).1) from rfl] at hk ⊢
      match k with
      | 0 => exact epochStep_loss_eq E C s val bs st
      | k + 1 =>
          rw [List.length_cons] at hk
          by_cases hstop : C.nInnerNoChange ≤ (epochStep E C s val bs st).1.noInnerChange
          · rw [if_pos hstop] at hk; simp at hk
          · rw [if_neg hstop] at hk ⊢
            rw [List.getD_cons_succ, innerIter_shift]
            exact ih _ k (by omega)

end InnerLoopLemmas

/-! ### Vector arithmetic helper lemmas -/

theorem sumsq_nonneg (l : Vec) : 0 ≤ sumsq l := by
  induction l with
  | nil => exact le_refl 0
  | cons q t ih =>
      show 0 ≤ q * q + (t.map (fun q => q * q)).sum
      exact add_nonneg (mul_self_nonneg q) ih

theorem sumsq_cons (q : ℚ) (t : Vec) : sumsq (q :: t) = q * q + sumsq t := rfl

theorem sumsq_eq_zero_iff (l : Vec) : sumsq l = 0 ↔ ∀ q ∈ l, q = 0 := by
  induction l with
  | nil => simp [sumsq]
  | cons q t ih =>
      rw [sumsq_cons]
      constructor
      · intro h
        have h1 := mul_self_nonneg q
        have h2 := sumsq_nonneg t
        have hq : q * q = 0 := by linarith
        have ht : sumsq t = 0 := by linarith
        intro r hr
        rcases List.mem_cons.mp hr with rfl | hr
        · exact mul_self_eq_zero.mp hq
        · exact ih.mp ht r hr
      · intro h
        have hq : q = 0 := h q (List.mem_cons_self _ _)
        have ht : sumsq t = 0 := ih.mpr (fun r hr => h r (List.mem_cons_of_mem _ hr))
        rw [hq, ht, mul_zero, add_zero]

theorem any_pos_abs_of_sumsq_ne (l : Vec) (h : sumsq l ≠ 0) :
    l.any (fun q => decide (0 < |q|)) = true := by
  by_contra hall
  refine h ((sumsq_eq_zero_iff l).mpr ?_)
  intro q hq
  by_contra hq0
  exact hall (List.any_eq_true.mpr ⟨q, hq, by simpa [abs_pos] using hq0⟩)

theorem sumsq_map_div (l : Vec) (n : ℚ) :
    sumsq (l.map (· / n)) = sumsq l / (n * n) := by
  induction l with
  | nil => simp [sumsq]
  | cons q t ih =>
      show q / n * (q / n) + sumsq (t.map (· / n)) = (q * q + sumsq t) / (n * n)
      rw [ih, div_mul_div_comm, add_div]

theorem sumsq_map_neg (l : Vec) : sumsq (l.map (fun q => -q)) = sumsq l := by
  induction l with
  | nil => rfl
  | cons q t ih =>
      show -q * -q + sumsq (t.map (fun q => -q)) = q * q + sumsq t
      rw [ih, neg_mul_neg]

theorem argmaxAbsAux_map_neg (t : List ℚ) :
    ∀ i bv bi, argmaxAbsAux (t.map (fun q => -q)) i bv bi = argmaxAbsAux t i bv bi := by
  induction t with
  | nil => intro i bv bi; rfl
  | cons q t ih =>
      intro i bv bi
      show (if bv < |(-q)| then argmaxAbsAux (t.map (fun q => -q)) (i + 1) |(-q)| i
            else argmaxAbsAux (t.map (fun q => -q)) (i + 1) bv bi) =
        (if bv < |q| then argmaxAbsAux t (i + 1) |q| i
         else argmaxAbsAux t (i + 1) bv bi)
      rw [abs_neg]
      by_cases h : bv < |q|
      · rw [if_pos h, if_pos h, ih]
      · rw [if_neg h, if_neg h, ih]

theorem argmaxAbs_map_neg (l : Vec) : argmaxAbs (l.map (fun q => -q)) = argmaxAbs l := by
  cases l with
  | nil => rfl
  | cons q t =>
      show argmaxAbsAux (t.map (fun q => -q)) 1 |(-q)| 0 = argmaxAbsAux t 1 |q| 0
      rw [abs_neg, argmaxAbsAux_map_neg]

theorem getD_map_neg (l : Vec) : ∀ i, (l.map (fun q => -q)).getD i 0 = -(l.getD i 0) := by
  induction l with
  | nil => intro i; simp
  | cons q t ih =>
      intro i
      match i with
      | 0 => rfl
      | i + 1 => exact ih i

theorem getD_map_of_lt (f : ℚ → ℚ) (l : Vec) :
    ∀ i, i < l.length → (l.map f).getD i 0 = f (l.getD i 0) := by
  induction l with
  | nil => intro i hi; simp at hi
  | cons q t ih =>
      intro i hi
      match i with
      | 0 => rfl
      | i + 1 => exact ih i (by simpa using hi)

theorem getD_zipWith (f : ℚ → ℚ → ℚ) (as : Vec) :
    ∀ (bs : Vec) (i : ℕ), i < as.length → i < bs.length →
      (List.zipWith f as bs).getD i 0 = f (as.getD i 0) (bs.getD i 0) := by
  induction as with
  | nil => intro bs i hi _; simp at hi
  | cons a as ih =>
      intro bs i hi hj
      cases bs with
      | nil => simp at hj
      | cons b bs =>
          match i with
          | 0 => rfl
          | i + 1 => exact ih bs i (by simpa using hi) (by simpa using hj)

theorem length_vscale (c : ℚ) (l : Vec) : (vscale c l).length = l.length :=
  List.length_map _ _

theorem getD_vscale (c : ℚ) (l : Vec) (i : ℕ) (h : i < l.length) :
    (vscale c l).getD i 0 = c * l.getD i 0 :=
  getD_map_of_lt _ _ _ h

theorem length_vadd (a b : Vec) : (vadd a b).length = min a.length b.length :=
  List.length_zipWith _ _ _

theorem getD_vadd (a b : Vec) (i : ℕ) (ha : i < a.length) (hb : i < b.length) :
    (vadd a b).getD i 0 = a.getD i 0 + b.getD i 0 :=
  getD_zipWith _ _ _ _ ha hb

theorem length_vmul (a b : Vec) : (vmul a b).length = min a.length b.length :=
  List.length_zipWith _ _ _

theorem getD_vmul (a b : Vec) (i : ℕ) (ha : i < a.length) (hb : i < b.length) :
    (vmul a b).getD i 0 = a.getD i 0 * b.getD i 0 :=
  getD_zipWith _ _ _ _ ha hb

theorem getD_vsub (a b : Vec) (i : ℕ) (ha : i < a.length) (hb : i < b.length) :
    (vsub a b).getD i 0 = a.getD i 0 - b.getD i 0 :=
  getD_zipWith _ _ _ _ ha hb

theorem length_vdiv (a b : Vec) : (vdiv a b).length = min a.length b.length :=
  List.length_zipWith _ _ _

theorem getD_vdiv (a b : Vec) (i : ℕ) (ha : i < a.length) (hb : i < b.length) :
    (vdiv a b).getD i 0 = a.getD i 0 / b.getD i 0 :=
  getD_zipWith _ _ _ _ ha hb

/-! ### Claim theorems -/

/-- **C1** (confirmed).  For every fitted estimator and every run of
`fit_middle_update_adam`, the `(beta_, shape_fit_)` pair held by the public
estimator when the procedure returns has validation loss equal to the
minimum over the initial committed baseline and all middle-iteration
candidates evaluated during the run; in particular the committed model's
validation loss is never strictly worse than the pre-refinement validation
loss, for any configuration of iteration bounds. -/
theorem committed_pair_is_min_val_loss {S : Type} (E : Env S) (C : Config)
    (model : Sim S) (data : List Sample) :
    valLoss E (E.split data).2 (fitMiddleUpdateAdam E C model data).beta_
        (fitMiddleUpdateAdam E C model data).shape_fit_ =
      (middleTrace E C (E.split data).2 (min C.batchSize (E.split data).1.length)
          C.maxMiddleIter (initMState E model (E.split data).1 (E.split data).2)).foldl
        (fun b c => min b c.loss)
        (valLoss E (E.split data).2 model.beta_ model.shape_fit_) ∧
    valLoss E (E.split data).2 (fitMiddleUpdateAdam E C model data).beta_
        (fitMiddleUpdateAdam E C model data).shape_fit_ ≤
      valLoss E (E.split data).2 model.beta_ model.shape_fit_ := by
  have hpub := middleLoop_pub_loss E C (E.split data).2
    (min C.batchSize (E.split data).1.length) C.maxMiddleIter
    (initMState E model (E.split data).1 (E.split data).2) rfl
  have hfold := middleLoop_best_fold E C (E.split data).2
    (min C.batchSize (E.split data).1.length) C.maxMiddleIter
    (initMState E model (E.split data).1 (E.split data).2)
  have hmain : valLoss E (E.split data).2 (fitMiddleUpdateAdam E C model data).beta_
        (fitMiddleUpdateAdam E C model data).shape_fit_ =
      (middleTrace E C (E.split data).2 (min C.batchSize (E.split data).1.length)
          C.maxMiddleIter (initMState E model (E.split data).1 (E.split data).2)).foldl
        (fun b c => min b c.loss)
        (valLoss E (E.split data).2 model.beta_ model.shape_fit_) := hpub.trans hfold
  exact ⟨hmain, hmain.trans_le (foldl_min_loss_le _ _)⟩

/-- **C3 amended** (the code commits on any literal strict improvement of the
best loss so far, while the patience counter is reset exactly on an
improvement of at least `tol` — commit and reset are decided by different
comparisons).  After each middle iteration: the public pair is replaced by
the candidate iff its validation loss is strictly below the best seen so
far; the no-change counter is reset iff the improvement is at least `tol`
and incremented otherwise; and the best tracker takes the literal minimum. -/
theorem middle_commit_and_patience {S : Type} (E : Env S) (C : Config)
    (val : List Sample) (bs : ℕ) (st : MState S) :
    (middleStep E C val bs st).1.pubBeta =
      (if (middleStep E C val bs st).2.loss < st.bestMiddle
       then (middleStep E C val bs st).2.beta else st.pubBeta) ∧
    (middleStep E C val bs st).1.pubShape =
      (if (middleStep E C val bs st).2.loss < st.bestMiddle
       then (middleStep E C val bs st).2.shape else st.pubShape) ∧
    (middleStep E C val bs st).1.noMiddleChange =
      (if C.tol ≤ st.bestMiddle - (middleStep E C val bs st).2.loss
       then 0 else st.noMiddleChange + 1) ∧
    (middleStep E C val bs st).1.bestMiddle =
      min st.bestMiddle (middleStep E C val bs st).2.loss :=
  ⟨middleStep_pubBeta E C val bs st, middleStep_pubShape E C val bs st,
   middleStep_noChange E C val bs st, middleStep_best E C val bs st⟩

/-- A concrete instantiation of the external collaborators for exercising
the middle loop with one feature: the spline engine always fits the constant
function `c`, predictions return that constant, the loss of a prediction
list is its first entry, the split puts the first sample in the training set
and the second in the validation set, and the shuffle stream is the
identity permutation. -/
def cexEnv (c : ℚ) : Env ℚ where
  rawEstimate := fun _ _ => []
  fitShape := fun _ _ _ _ => c
  predict := fun s _ => s
  dec := fun s _ => s
  diff := fun _ _ => 1
  getLoss := fun _ ps => ps.headD 0
  sqrt := fun q => if q = 1 then 1 else 0
  exp := fun _ => 1
  split := fun l => (l.take 1, l.drop 1)
  shuffle := fun _ l => l

/-- `tol = 1/10`, two middle iterations allowed, middle patience 1, no inner
epochs, batch size 1. -/
def cexCfg : Config := ⟨1, 1/10, 2, 1, 0, 5, 1, 0, 0, 0⟩

def cexData : List Sample := [([1], 0), ([1], 0)]

/-- A fitted one-feature model whose shape function is the constant `0`. -/
def cexModel : Sim ℚ := ⟨0, 0, 5, 3, 0, [1], 0⟩

def cexSt (c : ℚ) : MState ℚ :=
  initMState (cexEnv c) cexModel (cexData.take 1) (cexData.drop 1)

/-- **C3 counterexample.**  With `tol = 1/10`, the baseline loss `0` and a
candidate of loss `-1/10` — an improvement of exactly `tol`, hence *not*
strictly more than `tol` — the middle iteration nevertheless commits the
candidate (the public shape changes from `0` to `-1/10`) *and* resets the
no-change counter, refuting "committed and reset iff strictly better by
more than tol". -/
theorem middle_commit_cex :
    (middleStep (cexEnv (-1/10)) cexCfg (cexData.drop 1) 1 (cexSt (-1/10))).1.pubBeta = [1] ∧
    (middleStep (cexEnv (-1/10)) cexCfg (cexData.drop 1) 1 (cexSt (-1/10))).1.pubShape = -1/10 ∧
    (cexSt (-1/10)).pubShape = 0 ∧
    (middleStep (cexEnv (-1/10)) cexCfg (cexData.drop 1) 1 (cexSt (-1/10))).1.noMiddleChange = 0 ∧
    ¬ (cexCfg.tol < (cexSt (-1/10)).bestMiddle -
        (middleStep (cexEnv (-1/10)) cexCfg (cexData.drop 1) 1 (cexSt (-1/10))).2.loss) := by
  norm_num [middleStep, middleStepWith, innerLoop, normalizeTheta, sumsq, argmaxAbs,
    argmaxAbsAux, cexEnv, cexCfg, cexSt, cexData, cexModel, initMState, valLoss, dot,
    listMin, listMax, gtBestMinusTol, ltBest, adamZero]

/-- **C4 amended** (the code's middle patience counter counts iterations
that fail to improve on the best-so-far by *at least* `tol`; an improvement
of exactly `tol` resets it).  The middle loop of `fit_middle_update_adam`
executes `(middleTrace …).length` iterations: never more than
`max_middle_iter`; before the last executed iteration the counter never
reached the patience; an exit before the bound happens exactly because the
counter just reached the patience; the loop's final state is the plain
iteration of `middleStep` stopped there; and the counter after each
iteration is reset iff that iteration improved the best-so-far by at least
`tol`, incremented otherwise. -/
theorem middle_early_stop_exact {S : Type} (E : Env S) (C : Config)
    (val : List Sample) (bs : ℕ) (st : MState S) :
    (middleTrace E C val bs C.maxMiddleIter st).length ≤ C.maxMiddleIter ∧
    (∀ i, 1 ≤ i → i < (middleTrace E C val bs C.maxMiddleIter st).length →
      (middleIter E C val bs st i).noMiddleChange < C.nMiddleNoChange) ∧
    ((middleTrace E C val bs C.maxMiddleIter st).length < C.maxMiddleIter →
      C.nMiddleNoChange ≤
        (middleIter E C val bs st
          (middleTrace E C val bs C.maxMiddleIter st).length).noMiddleChange) ∧
    middleLoop E C val bs C.maxMiddleIter st =
      middleIter E C val bs st (middleTrace E C val bs C.maxMiddleIter st).length ∧
    (∀ k, (middleIter E C val bs st (k + 1)).noMiddleChange =
      if C.tol ≤ (middleIter E C val bs st k).bestMiddle -
          (middleStep E C val bs (middleIter E C val bs st k)).2.loss
      then 0 else (middleIter E C val bs st k).noMiddleChange + 1) :=
  ⟨middleTrace_length_le E C val bs C.maxMiddleIter st,
   middleTrace_no_early_stop E C val bs C.maxMiddleIter st,
   middleTrace_stop_reason E C val bs C.maxMiddleIter st,
   middleLoop_eq_iter E C val bs C.maxMiddleIter st,
   fun k => middleStep_noChange E C val bs (middleIter E C val bs st k)⟩

/-- Closed instance of `middle_early_stop_exact` at a concrete run. -/
theorem middle_early_stop_exact_witness :
    (middleTrace (cexEnv (-1/20)) cexCfg (cexData.drop 1) 1
        cexCfg.maxMiddleIter (cexSt (-1/20))).length ≤ cexCfg.maxMiddleIter ∧
    middleLoop (cexEnv (-1/20)) cexCfg (cexData.drop 1) 1
        cexCfg.maxMiddleIter (cexSt (-1/20)) =
      middleIter (cexEnv (-1/20)) cexCfg (cexData.drop 1) 1 (cexSt (-1/20))
        (middleTrace (cexEnv (-1/20)) cexCfg (cexData.drop 1) 1
          cexCfg.maxMiddleIter (cexSt (-1/20))).length :=
  ⟨(middle_early_stop_exact (cexEnv (-1/20)) cexCfg (cexData.drop 1) 1 (cexSt (-1/20))).1,
   (middle_early_stop_exact (cexEnv (-1/20)) cexCfg (cexData.drop 1) 1 (cexSt (-1/20))).2.2.2.1⟩

/-- **C4 counterexample.**  With middle patience `1`, the first middle
iteration improves the baseline by exactly `tol` — so it "fails to improve
by more than `tol`", and by the claim the loop should stop right there —
yet the code resets the counter and executes a second middle iteration. -/
theorem middle_early_stop_cex :
    cexCfg.nMiddleNoChange = 1 ∧
    ¬ (cexCfg.tol < (cexSt (-1/10)).bestMiddle -
        ((middleTrace (cexEnv (-1/10)) cexCfg (cexData.drop 1) 1 2
          (cexSt (-1/10))).getD 0 ⟨[], 0, 0⟩).loss) ∧
    (middleTrace (cexEnv (-1/10)) cexCfg (cexData.drop 1) 1 2 (cexSt (-1/10))).length = 2 := by
  norm_num [middleTrace, middleStep, middleStepWith, innerLoop, normalizeTheta, sumsq,
    argmaxAbs, argmaxAbsAux, cexEnv, cexCfg, cexSt, cexData, cexModel, initMState,
    valLoss, dot, listMin, listMax, gtBestMinusTol, ltBest, adamZero]

/-- **C5 amended** (the code's inner patience counter counts epochs that
fail to improve on the best inner loss by *at least* `tol`; an improvement
of exactly `tol` resets it).  Within every middle iteration: each epoch's
recorded validation loss is the loss of the *updated* working `θ` scored
with the fixed shape function `s` handed to the inner loop — the shape
fitted in the previous middle iteration, never refit inside; the counter is
reset iff the epoch improved the best inner loss by at least `tol`
(the first epoch, against `np.inf`, always resets) and incremented
otherwise; the loop runs at most `max_inner_iter` epochs, never stops while
the counter is below the inner patience, stops before the bound only when
the counter just reached it; and the candidate of a middle iteration is the
normalized post-inner-loop direction with the shape function refit only
after the inner loop exits. -/
theorem inner_epoch_stale_shape_and_early_stop {S : Type} (E : Env S) (C : Config)
    (s : S) (val : List Sample) (bs : ℕ) (st : IState S) (mst : MState S) :
    (∀ k, k < (innerTrace E C s val bs C.maxInnerIter st).length →
      (innerTrace E C s val bs C.maxInnerIter st).getD k 0 =
        valLoss E val (innerIter E C s val bs st (k + 1)).theta s) ∧
    (∀ k, (innerIter E C s val bs st (k + 1)).noInnerChange =
      match (innerIter E C s val bs st k).bestInner with
      | none => 0
      | some b =>
          if C.tol ≤ b - (epochStep E C s val bs (innerIter E C s val bs st k)).2
          then 0 else (innerIter E C s val bs st k).noInnerChange + 1) ∧
    (innerTrace E C s val bs C.maxInnerIter st).length ≤ C.maxInnerIter ∧
    (∀ i, 1 ≤ i → i < (innerTrace E C s val bs C.maxInnerIter st).length →
      (innerIter E C s val bs st i).noInnerChange < C.nInnerNoChange) ∧
    ((innerTrace E C s val bs C.maxInnerIter st).length < C.maxInnerIter →
      C.nInnerNoChange ≤ (innerIter E C s val bs st
        (innerTrace E C s val bs C.maxInnerIter st).length).noInnerChange) ∧
    innerLoop E C s val bs C.maxInnerIter st =
      innerIter E C s val bs st (innerTrace E C s val bs C.maxInnerIter st).length ∧
    (middleStep E C val bs mst).2.beta =
      normalizeTheta E (innerLoop E C mst.copyShape val bs C.maxInnerIter
        ⟨mst.copyBeta, adamZero C.d, mst.tr, none, 0, mst.ctr⟩).theta ∧
    (middleStep E C val bs mst).2.shape =
      E.fitShape
        ((innerLoop E C mst.copyShape val bs C.maxInnerIter
            ⟨mst.copyBeta, adamZero C.d, mst.tr, none, 0, mst.ctr⟩).tr.map
          (fun p => dot p.1 (middleStep E C val bs mst).2.beta))
        ((innerLoop E C mst.copyShape val bs C.maxInnerIter
            ⟨mst.copyBeta, adamZero C.d, mst.tr, none, 0, mst.ctr⟩).tr.map Prod.snd)
        (listMin ((innerLoop E C mst.copyShape val bs C.maxInnerIter
            ⟨mst.copyBeta, adamZero C.d, mst.tr, none, 0, mst.ctr⟩).tr.map
          (fun p => dot p.1 (middleStep E C val bs mst).2.beta)))
        (listMax ((innerLoop E C mst.copyShape val bs C.maxInnerIter
            ⟨mst.copyBeta, adamZero C.d, mst.tr, none, 0, mst.ctr⟩).tr.map
          (fun p => dot p.1 (middleStep E C val bs mst).2.beta))) :=
  ⟨innerTrace_getD E C s val bs C.maxInnerIter st,
   fun k => epochStep_noChange E C s val bs (innerIter E C s val bs st k),
   innerTrace_length_le E C s val bs C.maxInnerIter st,
   innerTrace_no_early_stop E C s val bs C.maxInnerIter st,
   innerTrace_stop_reason E C s val bs C.maxInnerIter st,
   innerLoop_eq_iter E C s val bs C.maxInnerIter st, rfl, rfl⟩

/-- **C2** (confirmed).  Whenever the raw Stein/Lasso estimate is nonzero
(expressed through the square-root oracle being exact and positive at its
squared norm, as `np.sqrt` is), the direction produced by `fit` has L2 norm
1 — its sum of squares is exactly 1 — and its component of largest absolute
value (numpy's first `argmax` of the absolute values) is non-negative. -/
theorem fit_beta_unit_norm_sign {S : Type} (E : Env S) (xs : List Vec) (ys : List ℚ)
    (h1 : E.sqrt (sumsq (E.rawEstimate xs ys)) ^ 2 = sumsq (E.rawEstimate xs ys))
    (h2 : 0 < E.sqrt (sumsq (E.rawEstimate xs ys))) :
    sumsq (fitBeta E xs ys) = 1 ∧
    0 ≤ (fitBeta E xs ys).getD (argmaxAbs (fitBeta E xs ys)) 0 := by
  have hz : firstOrderThres E xs ys =
      (E.rawEstimate xs ys).map (· / E.sqrt (sumsq (E.rawEstimate xs ys))) := by
    unfold firstOrderThres
    rw [if_pos h2]
  have hnn : E.sqrt (sumsq (E.rawEstimate xs ys)) ≠ 0 := ne_of_gt h2
  have hb1 : sumsq (firstOrderThres E xs ys) = 1 := by
    rw [hz, sumsq_map_div]
    have hmul : E.sqrt (sumsq (E.rawEstimate xs ys)) *
        E.sqrt (sumsq (E.rawEstimate xs ys)) = sumsq (E.rawEstimate xs ys) := by
      rw [← sq]; exact h1
    rw [hmul]
    exact div_self (by rw [← hmul]; exact mul_ne_zero hnn hnn)
  have hany : (firstOrderThres E xs ys).any (fun q => decide (0 < |q|)) = true :=
    any_pos_abs_of_sumsq_ne _ (by rw [hb1]; exact one_ne_zero)
  show sumsq (signFix (firstOrderThres E xs ys)) = 1 ∧
    0 ≤ (signFix (firstOrderThres E xs ys)).getD
      (argmaxAbs (signFix (firstOrderThres E xs ys))) 0
  unfold signFix
  rw [if_pos hany]
  by_cases hneg : (firstOrderThres E xs ys).getD (argmaxAbs (firstOrderThres E xs ys)) 0 < 0
  · rw [if_pos hneg]
    constructor
    · rw [sumsq_map_neg]; exact hb1
    · rw [argmaxAbs_map_neg, getD_map_neg]
      linarith
  · rw [if_neg hneg]
    exact ⟨hb1, not_lt.mp hneg⟩

/-- Collaborators for the closed direction instances: the raw estimate is
the fixed vector `[3, -4]` (squared norm `25`), and the square-root oracle
is exact there. -/
def dirCexEnv : Env ℚ where
  rawEstimate := fun _ _ => [3, -4]
  fitShape := fun _ _ _ _ => 0
  predict := fun s _ => s
  dec := fun s _ => s
  diff := fun _ _ => 1
  getLoss := fun _ ps => ps.headD 0
  sqrt := fun q => if q = 25 then 5 else 0
  exp := fun _ => 1
  split := fun l => (l.take 1, l.drop 1)
  shuffle := fun _ l => l

/-- Closed instance of `fit_beta_unit_norm_sign`: the raw estimate
`[3, -4]` normalizes to `[3/5, -4/5]` and sign-fixes to `[-3/5, 4/5]`. -/
theorem fit_beta_unit_norm_sign_witness :
    (dirCexEnv.sqrt (sumsq (dirCexEnv.rawEstimate [] [])) ^ 2 =
        sumsq (dirCexEnv.rawEstimate [] []) ∧
      0 < dirCexEnv.sqrt (sumsq (dirCexEnv.rawEstimate [] []))) ∧
    sumsq (fitBeta dirCexEnv [] []) = 1 ∧
    0 ≤ (fitBeta dirCexEnv [] []).getD (argmaxAbs (fitBeta dirCexEnv [] [])) 0 :=
  ⟨⟨by norm_num [dirCexEnv, sumsq], by norm_num [dirCexEnv, sumsq]⟩,
   fit_beta_unit_norm_sign dirCexEnv [] []
     (by norm_num [dirCexEnv, sumsq]) (by norm_num [dirCexEnv, sumsq])⟩

/-- **C7** (confirmed).  When the raw direction estimate has zero norm,
`_first_order_thres` returns it unchanged — no normalization happens and,
the embedding being total, no exception is raised — and the zero vector
then also passes through `fit`'s sign fix unchanged, propagating to the
caller. -/
theorem zero_direction_passthrough {S : Type} (E : Env S) (xs : List Vec) (ys : List ℚ)
    (h0 : sumsq (E.rawEstimate xs ys) = 0) (hs : E.sqrt 0 = 0) :
    firstOrderThres E xs ys = E.rawEstimate xs ys ∧
    fitBeta E xs ys = E.rawEstimate xs ys := by
  have hno : ¬ 0 < E.sqrt (sumsq (E.rawEstimate xs ys)) := by
    rw [h0, hs]; exact lt_irrefl 0
  have hthres : firstOrderThres E xs ys = E.rawEstimate xs ys := by
    unfold firstOrderThres
    rw [if_neg hno]
  refine ⟨hthres, ?_⟩
  show signFix (firstOrderThres E xs ys) = _
  rw [hthres]
  have hall := (sumsq_eq_zero_iff _).mp h0
  unfold signFix
  rw [if_neg (by
    intro hc
    obtain ⟨q, hq, hpos⟩ := List.any_eq_true.mp hc
    rw [hall q hq] at hpos
    simp at hpos)]

/-- Closed instance of `zero_direction_passthrough` at a raw estimate that
is literally the zero vector. -/
def zeroDirEnv : Env ℚ where
  rawEstimate := fun _ _ => [0, 0]
  fitShape := fun _ _ _ _ => 0
  predict := fun s _ => s
  dec := fun s _ => s
  diff := fun _ _ => 1
  getLoss := fun _ ps => ps.headD 0
  sqrt := fun _ => 0
  exp := fun _ => 1
  split := fun l => (l.take 1, l.drop 1)
  shuffle := fun _ l => l

theorem zero_direction_passthrough_witness :
    (sumsq (zeroDirEnv.rawEstimate [] []) = 0 ∧ zeroDirEnv.sqrt 0 = 0) ∧
    firstOrderThres zeroDirEnv [] [] = zeroDirEnv.rawEstimate [] [] ∧
    fitBeta zeroDirEnv [] [] = zeroDirEnv.rawEstimate [] [] :=
  ⟨⟨by norm_num [zeroDirEnv, sumsq], rfl⟩,
   zero_direction_passthrough zeroDirEnv [] [] (by norm_num [zeroDirEnv, sumsq]) rfl⟩

theorem mem_uniqueSorted (y : List ℚ) (a : ℚ) : a ∈ uniqueSorted y ↔ a ∈ y := by
  unfold uniqueSorted
  rw [(List.perm_insertionSort _ _).mem_iff, List.mem_dedup]

theorem uniqueSorted_ne_nil (y : List ℚ) (hy : y ≠ []) : uniqueSorted y ≠ [] := by
  obtain ⟨a, ha⟩ := List.exists_mem_of_ne_nil y hy
  exact List.ne_nil_of_mem ((mem_uniqueSorted y a).mpr ha)

theorem binInverse_mem (cls : List ℚ) (p : ℚ) (h : cls ≠ []) : binInverse cls p ∈ cls := by
  match cls with
  | [] => exact absurd rfl h
  | c0 :: rest =>
      unfold binInverse
      by_cases hp : 1 / 2 < p
      · rw [if_pos hp]
        match rest with
        | [] => exact List.mem_cons_self _ _
        | c1 :: r2 => exact List.mem_cons_of_mem _ (List.mem_cons_self _ _)
      · rw [if_neg hp]
        exact List.mem_cons_self _ _

/-- **C8** (confirmed).  For a fitted classifier (its stored classes are the
distinct labels seen at fit time) and a strictly positive exponential, every
row `predict_proba` produces sums to 1, and every label `predict` returns is
one of the labels observed at fit time. -/
theorem clf_proba_sum_and_label {S : Type} (E : Env S) (m : ClfFitted S)
    (xs : List Vec) (y : List ℚ)
    (hexp : ∀ q, 0 < E.exp q) (hcls : m.classes_ = uniqueSorted y) (hy : y ≠ []) :
    (∀ row ∈ predictProbaC E m xs, row.sum = 1) ∧
    (∀ lab ∈ predictC E m xs, lab ∈ y) := by
  constructor
  · intro row hrow
    obtain ⟨x, hx, rfl⟩ := List.mem_map.mp hrow
    have hpos : 0 < E.exp (-(E.dec m.shape_fit_ (dot x m.beta_)) / 2) +
        E.exp (E.dec m.shape_fit_ (dot x m.beta_) / 2) := add_pos (hexp _) (hexp _)
    show E.exp (-(E.dec m.shape_fit_ (dot x m.beta_)) / 2) /
        (E.exp (-(E.dec m.shape_fit_ (dot x m.beta_)) / 2) +
          E.exp (E.dec m.shape_fit_ (dot x m.beta_) / 2)) +
      (E.exp (E.dec m.shape_fit_ (dot x m.beta_) / 2) /
        (E.exp (-(E.dec m.shape_fit_ (dot x m.beta_)) / 2) +
          E.exp (E.dec m.shape_fit_ (dot x m.beta_) / 2)) + 0) = 1
    rw [add_zero, div_add_div_same, div_self (ne_of_gt hpos)]
  · intro lab hlab
    obtain ⟨row, hrow, rfl⟩ := List.mem_map.mp hlab
    rw [hcls]
    exact (mem_uniqueSorted y _).mp (binInverse_mem _ _ (uniqueSorted_ne_nil y hy))

/-- A fitted one-feature classifier over the labels `{0, 1}` with decision
value `0` everywhere and the constant-1 stand-in for the exponential (any
strictly positive function works). -/
def clfCexEnv : Env ℚ where
  rawEstimate := fun _ _ => []
  fitShape := fun _ _ _ _ => 0
  predict := fun s _ => s
  dec := fun s _ => s
  diff := fun _ _ => 1
  getLoss := fun _ ps => ps.headD 0
  sqrt := fun _ => 0
  exp := fun _ => 1
  split := fun l => (l.take 1, l.drop 1)
  shuffle := fun _ l => l

def clfCexModel : ClfFitted ℚ := ⟨[1], 0, uniqueSorted [0, 1]⟩

/-- Closed instance of `clf_proba_sum_and_label` on one sample. -/
theorem clf_proba_sum_and_label_witness :
    ((predictProbaC clfCexEnv clfCexModel [[1]]).getD 0 []).sum = 1 ∧
    (predictC clfCexEnv clfCexModel [[1]]).getD 0 0 ∈ ([0, 1] : List ℚ) := by
  have main := clf_proba_sum_and_label clfCexEnv clfCexModel [[1]] [0, 1]
    (fun _ => one_pos) rfl (List.cons_ne_nil _ _)
  exact ⟨main.1 _ (List.mem_cons_self _ _), main.2 _ (List.mem_cons_self _ _)⟩

/-- **C9** (confirmed).  `decision_function`, regression `predict`,
classifier `predict_proba` / `predict` and `visualize` raise the
"not fitted" error exactly when `beta_` or `shape_fit_` is absent: missing
either attribute fails fast, and the check requires the presence of both. -/
theorem unfitted_access_errors {S : Type} (E : Env S) (m : SimAttrs S) (xs : List Vec) :
    (decisionFunctionA E m xs = Except.error "not fitted" ↔
      m.beta_ = none ∨ m.shape_fit_ = none) ∧
    (predictRegA E m xs = Except.error "not fitted" ↔
      m.beta_ = none ∨ m.shape_fit_ = none) ∧
    (predictProbaA E m xs = Except.error "not fitted" ↔
      m.beta_ = none ∨ m.shape_fit_ = none) ∧
    (predictClfA E m xs = Except.error "not fitted" ↔
      m.beta_ = none ∨ m.shape_fit_ = none) ∧
    (visualizeA m = Except.error "not fitted" ↔
      m.beta_ = none ∨ m.shape_fit_ = none) := by
  obtain ⟨b, s, cq⟩ := m
  cases b <;> cases s <;>
    simp [decisionFunctionA, predictRegA, predictProbaA, predictClfA, visualizeA,
      checkIsFitted, Except.map]

/-- **C6** (confirmed).  Every mini-batch update follows the Adam rule: the
counter is bumped, the two moment vectors are the exponential moving
averages of the gradient and its square with decay rates `beta_1`, `beta_2`,
and componentwise the step is `learning_rate` times the moment
bias-corrected by the running update count, divided by the square root of
the bias-corrected second moment plus `1e-8`.  Moreover every middle
iteration starts its inner loop from the zero Adam state (`m_t = v_t = 0`,
`num_updates = 0`), and neither `Sim` nor `MState` carries Adam state across
middle iterations — `middleStep` is `middleStepWith` at the zero state. -/
theorem adam_update_formula {S : Type} (E : Env S) (C : Config) (a : AdamState)
    (θ g : Vec) (i : ℕ) (val : List Sample) (bs : ℕ) (st : MState S)
    (hi : i < C.d) (hm : a.m.length = C.d) (hv : a.v.length = C.d)
    (hθ : θ.length = C.d) (hg : g.length = C.d) :
    (adamUpdate E C a θ g).1.num = a.num + 1 ∧
    (adamUpdate E C a θ g).1.m.getD i 0 =
      C.beta1 * a.m.getD i 0 + (1 - C.beta1) * g.getD i 0 ∧
    (adamUpdate E C a θ g).1.v.getD i 0 =
      C.beta2 * a.v.getD i 0 + (1 - C.beta2) * (g.getD i 0 * g.getD i 0) ∧
    (adamUpdate E C a θ g).2.getD i 0 =
      θ.getD i 0 -
        C.lr * ((adamUpdate E C a θ g).1.m.getD i 0 / (1 - C.beta1 ^ (a.num + 1))) /
          (E.sqrt ((adamUpdate E C a θ g).1.v.getD i 0 / (1 - C.beta2 ^ (a.num + 1))) +
            1 / 100000000) ∧
    middleStep E C val bs st = middleStepWith E C val bs (adamZero C.d) st ∧
    (adamZero C.d).m = List.replicate C.d 0 ∧
    (adamZero C.d).v = List.replicate C.d 0 ∧
    (adamZero C.d).num = 0 := by
  have hmg : i < (vscale C.beta1 a.m).length ∧ i < (vscale (1 - C.beta1) g).length := by
    rw [length_vscale, length_vscale, hm, hg]; exact ⟨hi, hi⟩
  have hm'len : (vadd (vscale C.beta1 a.m) (vscale (1 - C.beta1) g)).length = C.d := by
    rw [length_vadd, length_vscale, length_vscale, hm, hg, min_self]
  have hgg : i < (vmul g g).length := by
    rw [length_vmul, hg, min_self]; exact hi
  have hvg : i < (vscale C.beta2 a.v).length ∧ i < (vscale (1 - C.beta2) (vmul g g)).length := by
    rw [length_vscale, length_vscale, hv, length_vmul, hg, min_self]; exact ⟨hi, hi⟩
  have hv'len : (vadd (vscale C.beta2 a.v) (vscale (1 - C.beta2) (vmul g g))).length = C.d := by
    rw [length_vadd, length_vscale, length_vscale, hv, length_vmul, hg, min_self, min_self]
  have hmeq : (adamUpdate E C a θ g).1.m.getD i 0 =
      C.beta1 * a.m.getD i 0 + (1 - C.beta1) * g.getD i 0 := by
    show (vadd (vscale C.beta1 a.m) (vscale (1 - C.beta1) g)).getD i 0 = _
    rw [getD_vadd _ _ _ hmg.1 hmg.2, getD_vscale _ _ _ (hm ▸ hi),
      getD_vscale _ _ _ (hg ▸ hi)]
  have hveq : (adamUpdate E C a θ g).1.v.getD i 0 =
      C.beta2 * a.v.getD i 0 + (1 - C.beta2) * (g.getD i 0 * g.getD i 0) := by
    show (vadd (vscale C.beta2 a.v) (vscale (1 - C.beta2) (vmul g g))).getD i 0 = _
    rw [getD_vadd _ _ _ hvg.1 hvg.2, getD_vscale _ _ _ (hv ▸ hi),
      getD_vscale _ _ _ hgg, getD_vmul _ _ _ (hg ▸ hi) (hg ▸ hi)]
  refine ⟨rfl, hmeq, hveq, ?_, rfl, rfl, rfl, rfl⟩
  have hmcaplen : (vscale (1 / (1 - C.beta1 ^ (a.num + 1)))
      (vadd (vscale C.beta1 a.m) (vscale (1 - C.beta1) g))).length = C.d := by
    rw [length_vscale, hm'len]
  have hvcaplen : (vscale (1 / (1 - C.beta2 ^ (a.num + 1)))
      (vadd (vscale C.beta2 a.v) (vscale (1 - C.beta2) (vmul g g)))).length = C.d := by
    rw [length_vscale, hv'len]
  show (vsub θ (vdiv (vscale C.lr (vscale (1 / (1 - C.beta1 ^ (a.num + 1)))
      (vadd (vscale C.beta1 a.m) (vscale (1 - C.beta1) g))))
      ((vscale (1 / (1 - C.beta2 ^ (a.num + 1)))
        (vadd (vscale C.beta2 a.v) (vscale (1 - C.beta2) (vmul g g)))).map
        (fun q => E.sqrt q + eps8)))).getD i 0 = _
  rw [getD_vsub _ _ _ (hθ ▸ hi)
      (by rw [length_vdiv, length_vscale, hmcaplen, List.length_map, hvcaplen,
        min_self]; exact hi),
    getD_vdiv _ _ _ (by rw [length_vscale, hmcaplen]; exact hi)
      (by rw [List.length_map, hvcaplen]; exact hi),
    getD_vscale _ _ _ (hmcaplen ▸ hi),
    getD_vscale _ _ _ (hm'len ▸ hi),
    getD_map_of_lt _ _ _ (hvcaplen ▸ hi),
    getD_vscale _ _ _ (hv'len ▸ hi)]
  have e1 : C.lr * (1 / (1 - C.beta1 ^ (a.num + 1)) *
      (vadd (vscale C.beta1 a.m) (vscale (1 - C.beta1) g)).getD i 0) =
      C.lr * ((adamUpdate E C a θ g).1.m.getD i 0 / (1 - C.beta1 ^ (a.num + 1))) := by
    show C.lr * (1 / (1 - C.beta1 ^ (a.num + 1)) *
      (vadd (vscale C.beta1 a.m) (vscale (1 - C.beta1) g)).getD i 0) =
      C.lr * ((vadd (vscale C.beta1 a.m) (vscale (1 - C.beta1) g)).getD i 0 /
        (1 - C.beta1 ^ (a.num + 1)))
    rw [one_div_mul_eq_div]
  have e2 : (1 : ℚ) / (1 - C.beta2 ^ (a.num + 1)) *
      (vadd (vscale C.beta2 a.v) (vscale (1 - C.beta2) (vmul g g))).getD i 0 =
      (adamUpdate E C a θ g).1.v.getD i 0 / (1 - C.beta2 ^ (a.num + 1)) := by
    show (1 : ℚ) / (1 - C.beta2 ^ (a.num + 1)) *
      (vadd (vscale C.beta2 a.v) (vscale (1 - C.beta2) (vmul g g))).getD i 0 =
      (vadd (vscale C.beta2 a.v) (vscale (1 - C.beta2) (vmul g g))).getD i 0 /
        (1 - C.beta2 ^ (a.num + 1))
    rw [one_div_mul_eq_div]
  rw [e1, e2]
  rfl

/-- The environment and configuration of the closed Adam-update instance. -/
def adamCexEnv : Env ℚ where
  rawEstimate := fun _ _ => []
  fitShape := fun _ _ _ _ => 0
  predict := fun s _ => s
  dec := fun s _ => s
  diff := fun _ _ => 1
  getLoss := fun _ ps => ps.headD 0
  sqrt := fun q => if q = 4 then 2 else 0
  exp := fun _ => 1
  split := fun l => (l.take 1, l.drop 1)
  shuffle := fun _ l => l

def adamCexCfg : Config := ⟨1, 0, 1, 1, 1, 1, 1, 1/2, 1/2, 1/2⟩

/-- Closed instance of `adam_update_formula`: one feature, zero state,
`θ = [1]`, `g = [2]`. -/
theorem adam_update_formula_witness :
    (0 < adamCexCfg.d ∧ ([(0:ℚ)] : Vec).length = adamCexCfg.d ∧
      ([(1:ℚ)] : Vec).length = adamCexCfg.d ∧ ([(2:ℚ)] : Vec).length = adamCexCfg.d) ∧
    (adamUpdate adamCexEnv adamCexCfg ⟨[0], [0], 0⟩ [1] [2]).1.num = 0 + 1 ∧
    (adamUpdate adamCexEnv adamCexCfg ⟨[0], [0], 0⟩ [1] [2]).1.m.getD 0 0 =
      adamCexCfg.beta1 * ([(0:ℚ)] : Vec).getD 0 0 +
        (1 - adamCexCfg.beta1) * ([(2:ℚ)] : Vec).getD 0 0 ∧
    (adamUpdate adamCexEnv adamCexCfg ⟨[0], [0], 0⟩ [1] [2]).2.getD 0 0 =
      ([(1:ℚ)] : Vec).getD 0 0 -
        adamCexCfg.lr * ((adamUpdate adamCexEnv adamCexCfg ⟨[0], [0], 0⟩ [1] [2]).1.m.getD 0 0 /
            (1 - adamCexCfg.beta1 ^ (0 + 1))) /
          (adamCexEnv.sqrt ((adamUpdate adamCexEnv adamCexCfg ⟨[0], [0], 0⟩ [1] [2]).1.v.getD 0 0 /
              (1 - adamCexCfg.beta2 ^ (0 + 1))) + 1 / 100000000) :=
  ⟨⟨Nat.one_pos, rfl, rfl, rfl⟩,
   (adam_update_formula adamCexEnv adamCexCfg ⟨[0], [0], 0⟩ [1] [2] 0 [] 1 (cexSt 0)
      Nat.one_pos rfl rfl rfl rfl).1,
   (adam_update_formula adamCexEnv adamCexCfg ⟨[0], [0], 0⟩ [1] [2] 0 [] 1 (cexSt 0)
      Nat.one_pos rfl rfl rfl rfl).2.1,
   (adam_update_formula adamCexEnv adamCexCfg ⟨[0], [0], 0⟩ [1] [2] 0 [] 1 (cexSt 0)
      Nat.one_pos rfl rfl rfl rfl).2.2.2.1⟩

/-- `θ₁`: the working direction after the first Adam epoch of the concrete
inner run below (gradient `1`, one bias-corrected step of size
`(1/2) / (1 + 1e-8)` from `1`). -/
def th1 : ℚ := 1 - (1/2) / (1 + 1/100000000)

/-- A concrete collaborator instantiation for the inner loop: the shape
function is `f_s(q) = s + q` with derivative `1`, the loss of a prediction
list is its first entry, and the square root is exact on the values this
run reaches. -/
def innerCexEnv : Env ℚ where
  rawEstimate := fun _ _ => []
  fitShape := fun _ _ _ _ => 0
  predict := fun s q => s + q
  dec := fun s _ => s
  diff := fun _ _ => 1
  getLoss := fun _ ps => ps.headD 0
  sqrt := fun q => if q = 1 then 1 else if q = th1 * th1 then th1 else 0
  exp := fun _ => 1
  split := fun l => (l.take 1, l.drop 1)
  shuffle := fun _ l => l

/-- `tol` is chosen as *exactly* the improvement the second epoch of this
run achieves; inner patience 1, three epochs allowed, batch size 1,
learning rate 1/2, both Adam decay rates 0. -/
def innerCexCfg : Config := ⟨1, (1/2) * th1 / (th1 + 1/100000000), 1, 1, 3, 1, 1, 1/2, 0, 0⟩

def innerCexVal : List Sample := [([1], 0)]

def innerCexSt : IState ℚ := ⟨[1], adamZero 1, [([1], 0)], none, 0, 0⟩

/-- **C5 counterexample.**  With inner patience `1`, the second epoch of
this run improves the best inner validation loss by exactly `tol` — so "no
improvement greater than tol" occurred for one consecutive epoch and by the
claim the inner loop should stop after epoch 2 — yet the code resets the
counter and executes a third epoch. -/
theorem inner_early_stop_cex :
    innerCexCfg.nInnerNoChange = 1 ∧
    ¬ (innerCexCfg.tol <
        (innerTrace innerCexEnv innerCexCfg (0:ℚ) innerCexVal 1
          innerCexCfg.maxInnerIter innerCexSt).getD 0 0 -
        (innerTrace innerCexEnv innerCexCfg (0:ℚ) innerCexVal 1
          innerCexCfg.maxInnerIter innerCexSt).getD 1 0) ∧
    (innerTrace innerCexEnv innerCexCfg (0:ℚ) innerCexVal 1
      innerCexCfg.maxInnerIter innerCexSt).length = 3 := by
  norm_num [innerTrace, epochStep, innerCexEnv, innerCexCfg, innerCexVal, innerCexSt,
    batchesOf, gradBatch, adamUpdate, adamZero, vadd, vsub, vmul, vdiv, vscale, vsumAll,
    valLoss, dot, gtBestMinusTol, ltBest, eps8, th1, List.range, List.range.loop, sumsq]

/-- Closed instance of `inner_epoch_stale_shape_and_early_stop` at the
concrete inner run above. -/
theorem inner_epoch_stale_witness :
    (innerTrace innerCexEnv innerCexCfg (0:ℚ) innerCexVal 1
      innerCexCfg.maxInnerIter innerCexSt).length ≤ innerCexCfg.maxInnerIter ∧
    innerLoop innerCexEnv innerCexCfg (0:ℚ) innerCexVal 1
        innerCexCfg.maxInnerIter innerCexSt =
      innerIter innerCexEnv innerCexCfg (0:ℚ) innerCexVal 1 innerCexSt
        (innerTrace innerCexEnv innerCexCfg (0:ℚ) innerCexVal 1
          innerCexCfg.maxInnerIter innerCexSt).length :=
  ⟨(inner_epoch_stale_shape_and_early_stop innerCexEnv innerCexCfg (0:ℚ) innerCexVal 1
      innerCexSt (cexSt 0)).2.2.1,
   (inner_epoch_stale_shape_and_early_stop innerCexEnv innerCexCfg (0:ℚ) innerCexVal 1
      innerCexSt (cexSt 0)).2.2.2.2.2.1⟩

/-- **C10** (confirmed).  `fit_middle_update_adam` leaves the constructor
hyperparameters `reg_lambda`, `reg_gamma`, `knot_num`, `degree`,
`random_state` untouched, and the `(beta_, shape_fit_)` pair it leaves on
the public estimator is either exactly the incoming pair or a coherent
candidate snapshot: a direction together with the shape function refit on
the training projections under that very direction (both fields replaced
together from the same snapshot). -/
theorem middle_update_frame {S : Type} (E : Env S) (C : Config)
    (model : Sim S) (data : List Sample) :
    (fitMiddleUpdateAdam E C model data).reg_lambda = model.reg_lambda ∧
    (fitMiddleUpdateAdam E C model data).reg_gamma = model.reg_gamma ∧
    (fitMiddleUpdateAdam E C model data).knot_num = model.knot_num ∧
    (fitMiddleUpdateAdam E C model data).degree = model.degree ∧
    (fitMiddleUpdateAdam E C model data).random_state = model.random_state ∧
    (((fitMiddleUpdateAdam E C model data).beta_,
        (fitMiddleUpdateAdam E C model data).shape_fit_) =
      (model.beta_, model.shape_fit_) ∨
      Coherent E (fitMiddleUpdateAdam E C model data).beta_
        (fitMiddleUpdateAdam E C model data).shape_fit_) :=
  ⟨rfl, rfl, rfl, rfl, rfl,
    middleLoop_pub_cases E C (E.split data).2 (min C.batchSize (E.split data).1.length)
      (model.beta_, model.shape_fit_) C.maxMiddleIter
      (initMState E model (E.split data).1 (E.split data).2) (Or.inl rfl)⟩

end SimTree
